import Mathlib

/-!
Verification of the custom multi-language-pair batch sampling, adapter
rotation and ensemble evaluation logic of the wmt21-qe repository.

The embedding mirrors `src/run.py` (the copy of `MultiSampler` in
`src/baselines.py` is character-for-character the same class):

* `MultiSampler` (`run.py` 742-762): a sampler over a dataset whose length
  is read as a number of hard-coded blocks of 7000 training examples.
  Its generator `__iter__` is a `while` loop with `yield`s; we embed it as
  a fuel-indexed function `samplerIterAux` returning the list of yielded
  indices together with a flag telling whether the loop exited (`true`) or
  the fuel ran out mid-loop (`false`).  `blockSize` is a parameter (the
  source hard-codes 7000) so that the spec's small worked example with
  blocks of size 4 is also an instance of the same embedded code.
* `AdapterLangCallback` (`run.py` 706-739): pure state-passing version of
  the two mutating hooks `on_step_begin` and `next_test_adapter`.
* `CustomTrainer.prediction_loop`'s adapter-rotation condition
  (`run.py` 528-531): `if (step * batch_size) % 1000 == 0`.
* `EnsembleTrainer.prediction_loop`'s final averaging step
  (`run.py` 676-680): `.reshape(len(self.adapter_setup), -1).mean(dim=0)`
  on the accumulated loss/prediction buffers and `labels_host[:1000]`.
  Tensors are embedded as `List ℚ`; `reshape (n, -1)` fails exactly when
  the element count is not divisible by `n`, which we model with `Option`.
* `test` (`run.py` 193-243): the shape of the results object written to
  `evaluation_<task>.json`, with the library call `Trainer.evaluate`
  abstracted as a function argument.
-/

/-! ## MultiSampler (src/run.py lines 742-762, src/baselines.py 214-234) -/

/-- `MultiSampler.__init__`: keeps the dataset (only its length matters)
and the batch size. -/
structure MultiSampler where
  dataLen : Nat
  batchsize : Nat

/-- `self.max_rounds = len(self.data_source)//7000`. -/
def MultiSampler.max_rounds (s : MultiSampler) : Nat := s.dataLen / 7000

/-- `self.max_get = self.batchsize*(7000//self.batchsize)`. -/
def MultiSampler.max_get (s : MultiSampler) : Nat := s.batchsize * (7000 / s.batchsize)

/-- `MultiSampler.__len__`: `self.max_rounds * self.max_get`. -/
def MultiSampler.len (s : MultiSampler) : Nat := s.max_rounds * s.max_get

/-- The body of `MultiSampler.__iter__` after drawing `permutation` (here the
abstract `P`): `idx` and `round` evolve as in the source's `while idx <
max_get` loop, each pass yielding `permutation[idx+i].item() + round*7000`
for `i in range(batchsize)` (`blockSize` stands for the hard-coded 7000).
`fuel` bounds the number of loop-body executions; the Bool is `true` iff
the loop exited by its condition within the given fuel. -/
def samplerIterAux (blockSize B maxRounds maxGet : Nat) (P : Nat → Nat) :
    Nat → Nat → Nat → List Nat × Bool
  | 0, idx, _ => if idx < maxGet then ([], false) else ([], true)
  | fuel + 1, idx, round =>
    if idx < maxGet then
      let chunk := (List.range B).map fun i => P (idx + i) + round * blockSize
      let next : Nat × Nat := if round + 1 = maxRounds then (idx + B, 0) else (idx, round + 1)
      let rest := samplerIterAux blockSize B maxRounds maxGet P fuel next.1 next.2
      (chunk ++ rest.1, rest.2)
    else ([], true)

/-- Running the generator from its initial state `idx = 0`, `round = 0`,
with the source's parameters: block size as given, `maxGet = B*(blockSize//B)`. -/
def genRun (blockSize B maxRounds : Nat) (P : Nat → Nat) (fuel : Nat) : List Nat × Bool :=
  samplerIterAux blockSize B maxRounds (B * (blockSize / B)) P fuel 0 0

/-- One traversal of the generator, for a given drawn permutation `P`,
terminates and yields exactly `out`. -/
def genYields (blockSize B maxRounds : Nat) (P : Nat → Nat) (out : List Nat) : Prop :=
  ∃ fuel, genRun blockSize B maxRounds P fuel = (out, true)

/-- `MultiSampler.__iter__` run with fuel (block size hard-coded to 7000 as
in the source). -/
def MultiSampler.iterRun (s : MultiSampler) (P : Nat → Nat) (fuel : Nat) : List Nat × Bool :=
  genRun 7000 s.batchsize s.max_rounds P fuel

/-- One full traversal of `MultiSampler.__iter__` yields exactly `out`. -/
def MultiSampler.iterYields (s : MultiSampler) (P : Nat → Nat) (out : List Nat) : Prop :=
  ∃ fuel, s.iterRun P fuel = (out, true)

/-- The schedule the spec claims the sampler emits, transcribed from the
spec's words: for each outer offset `idx = k*B` below `max_get`, for each
`round` below `maxRounds`, the values `P[idx+i] + round*blockSize`,
`i < B`. -/
def samplerSpecSchedule (blockSize B maxRounds : Nat) (P : Nat → Nat) : List Nat :=
  (List.range (blockSize / B)).flatMap fun k =>
    (List.range maxRounds).flatMap fun r =>
      (List.range B).map fun i => P (k * B + i) + r * blockSize

/-! ### Generator lemmas -/

/-- Out of the loop: when `maxGet ≤ idx` the generator stops at once. -/
theorem samplerIterAux_exit (blockSize B maxRounds maxGet : Nat) (P : Nat → Nat)
    (fuel idx round : Nat) (h : ¬ idx < maxGet) :
    samplerIterAux blockSize B maxRounds maxGet P fuel idx round = ([], true) := by
  cases fuel <;> simp [samplerIterAux, h]

/-- One block of rounds: starting inside the loop at round `r` with
`r + (j+1) = maxRounds`, the next `j+1` loop passes emit rounds
`r, r+1, …, maxRounds-1` at the current `idx` and the loop continues at
`idx + B`, round `0`. -/
theorem samplerIterAux_rounds (blockSize B maxRounds maxGet : Nat) (P : Nat → Nat) :
    ∀ (j f' idx r : Nat), idx < maxGet → r + (j + 1) = maxRounds →
      samplerIterAux blockSize B maxRounds maxGet P (j + 1 + f') idx r =
        (((List.range' r (j + 1)).flatMap fun ρ =>
            (List.range B).map fun i => P (idx + i) + ρ * blockSize) ++
          (samplerIterAux blockSize B maxRounds maxGet P f' (idx + B) 0).1,
         (samplerIterAux blockSize B maxRounds maxGet P f' (idx + B) 0).2) := by
  intro j
  induction j with
  | zero =>
    intro f' idx r hidx hr
    simp only [Nat.zero_add] at hr ⊢
    rw [show (1 : Nat) + f' = f' + 1 from Nat.add_comm 1 f']
    simp only [samplerIterAux, if_pos hidx, hr, if_pos rfl]
    simp [List.range'_succ]
  | succ j ih =>
    intro f' idx r hidx hr
    have hne : ¬ (r + 1 = maxRounds) := by omega
    have hstep : j + 1 + 1 + f' = (j + 1 + f') + 1 := by omega
    rw [hstep]
    simp only [samplerIterAux, if_pos hidx, if_neg hne]
    rw [ih f' idx (r + 1) hidx (by omega)]
    simp [List.range'_succ, List.flatMap_cons, List.append_assoc]

/-- Whole run, positive number of rounds: from `idx = c*B` with `c + s`
outer steps remaining in total (`maxGet = (c+s)*B`), fuel `s*maxRounds`
finishes the loop and emits the claimed schedule for offsets
`c*B, (c+1)*B, …, (c+s-1)*B`. -/
theorem samplerIterAux_run (blockSize B maxRounds K : Nat) (P : Nat → Nat)
    (hB : 1 ≤ B) (hM : 1 ≤ maxRounds) :
    ∀ (s c : Nat), c + s = K →
      samplerIterAux blockSize B maxRounds (K * B) P (s * maxRounds) (c * B) 0 =
        ((List.range' c s).flatMap fun k =>
          (List.range maxRounds).flatMap fun r =>
            (List.range B).map fun i => P (k * B + i) + r * blockSize, true) := by
  intro s
  induction s with
  | zero =>
    intro c hc
    have : ¬ c * B < K * B := by
      have : c = K := by omega
      simp [this]
    rw [samplerIterAux_exit _ _ _ _ _ _ _ _ this]
    simp
  | succ s ih =>
    intro c hc
    have hidx : c * B < K * B := by
      have hcK : c < K := by omega
      exact (Nat.mul_lt_mul_right (by omega : 0 < B)).mpr hcK
    have hfuel : (s + 1) * maxRounds = (maxRounds - 1) + 1 + s * maxRounds := by
      have h1 : (s + 1) * maxRounds = s * maxRounds + maxRounds := Nat.succ_mul s maxRounds
      omega
    rw [hfuel, samplerIterAux_rounds blockSize B maxRounds (K * B) P (maxRounds - 1)
      (s * maxRounds) (c * B) 0 hidx (by omega)]
    have hnext : c * B + B = (c + 1) * B := by rw [Nat.succ_mul]
    rw [hnext, ih (c + 1) (by omega)]
    have hr0 : (0 : Nat) + (maxRounds - 1 + 1) = maxRounds := by omega
    rw [show maxRounds - 1 + 1 = maxRounds from by omega]
    rw [List.range'_succ]
    simp [List.flatMap_cons, List.range_eq_range']

/-- Master closed form: with `B ≥ 1` and at least one round, one traversal
of the generator terminates and yields exactly the spec schedule. -/
theorem genYields_schedule (blockSize B maxRounds : Nat) (P : Nat → Nat)
    (hB : 1 ≤ B) (hM : 1 ≤ maxRounds) :
    genRun blockSize B maxRounds P ((blockSize / B) * maxRounds) =
      (samplerSpecSchedule blockSize B maxRounds P, true) := by
  unfold genRun samplerSpecSchedule
  have hmg : B * (blockSize / B) = (blockSize / B) * B := Nat.mul_comm _ _
  rw [hmg]
  have := samplerIterAux_run blockSize B maxRounds (blockSize / B) P hB hM
    (blockSize / B) 0 (by omega)
  simpa [List.range_eq_range'] using this

/-- A run that exits by its loop condition is unchanged by extra fuel. -/
theorem samplerIterAux_fuel_stable (blockSize B maxRounds maxGet : Nat) (P : Nat → Nat) :
    ∀ (fuel k idx round : Nat) (out : List Nat),
      samplerIterAux blockSize B maxRounds maxGet P fuel idx round = (out, true) →
      samplerIterAux blockSize B maxRounds maxGet P (fuel + k) idx round = (out, true) := by
  intro fuel
  induction fuel with
  | zero =>
    intro k idx round out h
    by_cases hidx : idx < maxGet
    · simp [samplerIterAux, hidx] at h
    · rw [samplerIterAux_exit _ _ _ _ _ _ _ _ hidx]
      rw [samplerIterAux_exit _ _ _ _ _ _ _ _ hidx] at h
      exact h
  | succ fuel ih =>
    intro k idx round out h
    by_cases hidx : idx < maxGet
    · rw [show fuel + 1 + k = (fuel + k) + 1 from by omega]
      simp only [samplerIterAux, if_pos hidx] at h ⊢
      rcases hrec : samplerIterAux blockSize B maxRounds maxGet P fuel
          (if round + 1 = maxRounds then (idx + B, 0) else (idx, round + 1)).1
          (if round + 1 = maxRounds then (idx + B, 0) else (idx, round + 1)).2
        with ⟨restOut, restFin⟩
      rw [hrec] at h
      have hfin : restFin = true := by
        have := congrArg Prod.snd h
        simpa using this
      have hout : ((List.range B).map fun i => P (idx + i) + round * blockSize) ++ restOut
          = out := by
        have := congrArg Prod.fst h
        simpa using this
      rw [ih k _ _ restOut (by rw [hrec, hfin]), hout]
    · rw [samplerIterAux_exit _ _ _ _ _ _ _ _ hidx] at h
      rw [samplerIterAux_exit _ _ _ _ _ _ _ _ hidx]
      exact h

/-- Two terminating traversals of the generator yield the same list. -/
theorem genYields_unique (blockSize B maxRounds : Nat) (P : Nat → Nat)
    (out out' : List Nat) (h : genYields blockSize B maxRounds P out)
    (h' : genYields blockSize B maxRounds P out') : out = out' := by
  obtain ⟨f, hf⟩ := h
  obtain ⟨f', hf'⟩ := h'
  simp only [genRun] at hf hf'
  rcases Nat.le_total f f' with hle | hle
  · have hst := samplerIterAux_fuel_stable blockSize B maxRounds _ P f (f' - f) 0 0 out hf
    rw [show f + (f' - f) = f' from by omega] at hst
    rw [hst] at hf'
    simpa using congrArg Prod.fst hf'
  · have hst := samplerIterAux_fuel_stable blockSize B maxRounds _ P f' (f - f') 0 0 out' hf'
    rw [show f' + (f - f') = f from by omega] at hst
    rw [hst] at hf
    have := congrArg Prod.fst hf
    simpa using this.symm

/-- Zero rounds (`len(data_source) < 7000`): inside the loop, `round+1` never
equals `max_rounds = 0`, so `idx` never advances; every pass emits one more
chunk at the same `idx` with an ever-growing `round`, and the fuel always
runs out with the loop still live. -/
theorem samplerIterAux_zero_rounds (blockSize B maxGet : Nat) (P : Nat → Nat) :
    ∀ (fuel idx round : Nat), idx < maxGet →
      samplerIterAux blockSize B 0 maxGet P fuel idx round =
        ((List.range' round fuel).flatMap fun ρ =>
          (List.range B).map fun i => P (idx + i) + ρ * blockSize, false) := by
  intro fuel
  induction fuel with
  | zero => intro idx round hidx; simp [samplerIterAux, hidx]
  | succ fuel ih =>
    intro idx round hidx
    simp only [samplerIterAux, if_pos hidx]
    have hne : ¬ (round + 1 = 0) := by omega
    simp only [hne, if_false]
    rw [ih idx (round + 1) hidx]
    simp [List.range'_succ, List.flatMap_cons]

/-- Length of a flat map whose pieces all have the same length. -/
theorem length_flatMap_const {α β : Type} (l : List α) (f : α → List β) (c : Nat)
    (h : ∀ a ∈ l, (f a).length = c) : (l.flatMap f).length = l.length * c := by
  induction l with
  | nil => simp
  | cons x xs ih =>
    simp only [List.flatMap_cons, List.length_append, List.length_cons]
    rw [h x (by simp), ih (fun a ha => h a (by simp [ha]))]
    ring

/-- The spec schedule has exactly `(blockSize/B) * maxRounds * B` entries. -/
theorem samplerSpecSchedule_length (blockSize B maxRounds : Nat) (P : Nat → Nat) :
    (samplerSpecSchedule blockSize B maxRounds P).length =
      blockSize / B * maxRounds * B := by
  unfold samplerSpecSchedule
  rw [length_flatMap_const _ _ (maxRounds * B)]
  · simp [Nat.mul_assoc]
  · intro k _
    rw [length_flatMap_const _ _ B]
    · simp
    · intro r _
      simp

/-- Block decomposition of a range: counting `k*B + i` for `k < n`, `i < B`,
in lexicographic order, is exactly `range (n*B)`. -/
theorem range_flatMap_mul (n B : Nat) :
    ((List.range n).flatMap fun k => (List.range B).map fun i => k * B + i) =
      List.range (n * B) := by
  induction n with
  | zero => simp
  | succ n ih =>
    rw [List.range_succ, List.flatMap_append, ih, Nat.succ_mul, List.range_add]
    simp [Nat.add_comm]

/-- Variant block decomposition with the offset added on the right. -/
theorem range_flatMap_mul_add (n B : Nat) :
    ((List.range n).flatMap fun k => (List.range B).map fun i => i + k * B) =
      List.range (n * B) := by
  rw [← range_flatMap_mul n B]
  exact List.flatMap_congr fun k _ => List.map_congr_left fun i _ => Nat.add_comm i (k * B)

/-- For one round offset `r`, walking all blocks `k < blockSize/B` and
within-block positions `i < B` applies `P` to every position of
`[0, blockSize)` exactly once (given `B ∣ blockSize`). -/
theorem schedule_round_eq (blockSize B r : Nat) (P : Nat → Nat) (hdvd : B ∣ blockSize) :
    ((List.range (blockSize / B)).flatMap fun k =>
        (List.range B).map fun i => P (k * B + i) + r * blockSize) =
      (List.range blockSize).map fun j => P j + r * blockSize := by
  have h1 : ∀ k : Nat, ((List.range B).map fun i => P (k * B + i) + r * blockSize) =
      ((List.range B).map fun i => k * B + i).map fun j => P j + r * blockSize := by
    intro k
    rw [List.map_map]
    rfl
  calc ((List.range (blockSize / B)).flatMap fun k =>
          (List.range B).map fun i => P (k * B + i) + r * blockSize)
      = ((List.range (blockSize / B)).flatMap fun k =>
          ((List.range B).map fun i => k * B + i).map fun j => P j + r * blockSize) := by
        exact List.flatMap_congr fun k _ => h1 k
    _ = ((List.range (blockSize / B)).flatMap fun k =>
          (List.range B).map fun i => k * B + i).map fun j => P j + r * blockSize := by
        rw [List.map_flatMap]
    _ = (List.range blockSize).map fun j => P j + r * blockSize := by
        rw [range_flatMap_mul, Nat.div_mul_cancel hdvd]

/-- The schedule is a permutation of `[0, maxRounds * blockSize)`: every
dataset index is listed exactly once, provided `B` divides the block size
and `P` is a permutation of `[0, blockSize)`. -/
theorem samplerSpecSchedule_perm (blockSize B maxRounds : Nat) (P : Nat → Nat)
    (hdvd : B ∣ blockSize)
    (hP : ((List.range blockSize).map P).Perm (List.range blockSize)) :
    (samplerSpecSchedule blockSize B maxRounds P).Perm
      (List.range (maxRounds * blockSize)) := by
  rw [← Multiset.coe_eq_coe]
  unfold samplerSpecSchedule
  rw [← Multiset.coe_bind, ← range_flatMap_mul_add maxRounds blockSize, ← Multiset.coe_bind]
  have hstep : ∀ k ∈ (List.range (blockSize / B) : Multiset Nat),
      ((((List.range maxRounds).flatMap fun r =>
          (List.range B).map fun i => P (k * B + i) + r * blockSize) : List Nat) : Multiset Nat) =
        ((List.range maxRounds : List Nat) : Multiset Nat).bind fun r =>
          (((List.range B).map fun i => P (k * B + i) + r * blockSize : List Nat) : Multiset Nat) := by
    intro k _
    rw [Multiset.coe_bind]
  rw [Multiset.bind_congr hstep, Multiset.bind_bind]
  have hinner : ∀ r ∈ (List.range maxRounds : Multiset Nat),
      (((List.range (blockSize / B) : List Nat) : Multiset Nat).bind fun k =>
          (((List.range B).map fun i => P (k * B + i) + r * blockSize : List Nat) : Multiset Nat)) =
        (((List.range blockSize).map fun i => i + r * blockSize : List Nat) : Multiset Nat) := by
    intro r _
    rw [Multiset.coe_bind, schedule_round_eq blockSize B r P hdvd]
    rw [Multiset.coe_eq_coe]
    have h2 : ((List.range blockSize).map fun j => P j + r * blockSize) =
        ((List.range blockSize).map P).map fun j => j + r * blockSize := by
      rw [List.map_map]
      rfl
    rw [h2]
    exact hP.map _
  rw [Multiset.bind_congr hinner, Multiset.coe_bind]

/-! ### Claims about MultiSampler -/

/-- C1 (amended to positive multiples of 7000): for every batch size
`1 ≤ B ≤ 7000` and dataset length `N` a positive multiple of 7000, one
traversal of `MultiSampler.__iter__` terminates and yields exactly the
schedule `P[k*B+i] + r*7000` (offsets `k*B` below `max_get` outermost,
rounds `r < N/7000` next, `i < B` innermost); and for two blocks of size 4
with `B = 2` the generator yields exactly
`[P 0, P 1, P 0+4, P 1+4, P 2, P 3, P 2+4, P 3+4]`. -/
theorem c1_sampler_interleaving_schedule :
    (∀ (B N : Nat) (P : Nat → Nat), 1 ≤ B → B ≤ 7000 → 7000 ∣ N → 7000 ≤ N →
      MultiSampler.iterYields ⟨N, B⟩ P (samplerSpecSchedule 7000 B (N / 7000) P) ∧
      ∀ out, MultiSampler.iterYields ⟨N, B⟩ P out →
        out = samplerSpecSchedule 7000 B (N / 7000) P) ∧
    (∀ P : Nat → Nat,
      genYields 4 2 2 P [P 0, P 1, P 0 + 4, P 1 + 4, P 2, P 3, P 2 + 4, P 3 + 4]) := by
  constructor
  · intro B N P hB hB' _hdvd hN
    have hM : 1 ≤ N / 7000 := (Nat.one_le_div_iff (by omega)).mpr hN
    have hyield : MultiSampler.iterYields ⟨N, B⟩ P (samplerSpecSchedule 7000 B (N / 7000) P) :=
      ⟨7000 / B * (N / 7000), genYields_schedule 7000 B (N / 7000) P hB hM⟩
    refine ⟨hyield, fun out hout => ?_⟩
    exact genYields_unique 7000 B (N / 7000) P out _ hout hyield
  · intro P
    have h := genYields_schedule 4 2 2 P (by omega) (by omega)
    have hlist : samplerSpecSchedule 4 2 2 P =
        [P 0, P 1, P 0 + 4, P 1 + 4, P 2, P 3, P 2 + 4, P 3 + 4] := rfl
    exact ⟨4 / 2 * 2, by rw [h, hlist]⟩

/-- Witness for C1 at `N = 7000`, `B = 2` and the worked example with the
identity permutation. -/
theorem c1_sampler_interleaving_schedule_witness :
    MultiSampler.iterYields ⟨7000, 2⟩ (fun i => i)
      (samplerSpecSchedule 7000 2 (7000 / 7000) (fun i => i)) ∧
    genYields 4 2 2 (fun i => i) [0, 1, 0 + 4, 1 + 4, 2, 3, 2 + 4, 3 + 4] :=
  ⟨(c1_sampler_interleaving_schedule.1 2 7000 (fun i => i) (by omega) (by omega)
      (dvd_refl 7000) (by omega)).1,
   c1_sampler_interleaving_schedule.2 (fun i => i)⟩

/-- Counterexample to C1 as stated: a dataset length of 0 is a multiple of
7000 and the claimed schedule there is empty, but the traversal never
terminates (`max_rounds = 0`, so `round` is bumped past it forever), so it
never yields that finite sequence. -/
theorem c1_zero_length_counterexample :
    ¬ MultiSampler.iterYields ⟨0, 2⟩ (fun i => i)
      (samplerSpecSchedule 7000 2 (0 / 7000) (fun i => i)) := by
  rintro ⟨fuel, hf⟩
  have hrun : (MultiSampler.mk 0 2).iterRun (fun i => i) fuel =
      samplerIterAux 7000 2 0 (2 * (7000 / 2)) (fun i => i) fuel 0 0 := rfl
  rw [hrun, samplerIterAux_zero_rounds 7000 2 (2 * (7000 / 2)) (fun i => i) fuel 0 0
    (by norm_num)] at hf
  simpa using congrArg Prod.snd hf

/-- C2 (amended to `R ≥ 1`): for a dataset of length `N = R*7000` and a
batch size dividing 7000, one traversal terminates, yields exactly
`len(sampler) = R * max_get` elements and visits every index in `[0, N)`
exactly once. -/
theorem c2_sampler_visits_every_index_once (R B : Nat) (P : Nat → Nat)
    (hR : 1 ≤ R) (hB : B ∣ 7000)
    (hP : ((List.range 7000).map P).Perm (List.range 7000)) :
    ∃ out, MultiSampler.iterYields ⟨R * 7000, B⟩ P out ∧
      out.length = MultiSampler.len ⟨R * 7000, B⟩ ∧
      out.Perm (List.range (R * 7000)) := by
  have hBpos : 1 ≤ B := Nat.pos_of_dvd_of_pos hB (by omega)
  have hRounds : (MultiSampler.mk (R * 7000) B).max_rounds = R := by
    show R * 7000 / 7000 = R
    exact Nat.mul_div_cancel R (by omega)
  refine ⟨samplerSpecSchedule 7000 B R P, ?_, ?_, ?_⟩
  · refine ⟨7000 / B * R, ?_⟩
    show genRun 7000 B (R * 7000 / 7000) P (7000 / B * R) = _
    rw [show R * 7000 / 7000 = R from Nat.mul_div_cancel R (by omega)]
    exact genYields_schedule 7000 B R P hBpos hR
  · rw [samplerSpecSchedule_length]
    show 7000 / B * R * B = R * 7000 / 7000 * (B * (7000 / B))
    rw [Nat.mul_div_cancel R (by omega), Nat.mul_div_cancel' hB]
    have : 7000 / B * B = 7000 := Nat.div_mul_cancel hB
    calc 7000 / B * R * B = R * (7000 / B * B) := by ring
      _ = R * 7000 := by rw [this]
  · exact samplerSpecSchedule_perm 7000 B R P hB hP

/-- Witness for C2 at `R = 1`, `B = 7000`, identity permutation. -/
theorem c2_sampler_visits_every_index_once_witness :
    ∃ out, MultiSampler.iterYields ⟨1 * 7000, 7000⟩ (fun i => i) out ∧
      out.length = MultiSampler.len ⟨1 * 7000, 7000⟩ ∧
      out.Perm (List.range (1 * 7000)) :=
  c2_sampler_visits_every_index_once 1 7000 (fun i => i) (by omega) (dvd_refl 7000)
    (by rw [List.map_id'])

/-- Counterexample to C2 as stated: at `R = 0` (dataset length 0, a
multiple of 7000, `B = 7` divides 7000) the traversal never terminates, so
there is no yielded list at all, let alone one of the declared length that
is a permutation of the empty range. -/
theorem c2_zero_blocks_counterexample :
    ¬ ∃ out, MultiSampler.iterYields ⟨0 * 7000, 7⟩ (fun i => i) out ∧
      out.length = MultiSampler.len ⟨0 * 7000, 7⟩ ∧
      out.Perm (List.range (0 * 7000)) := by
  rintro ⟨out, ⟨fuel, hf⟩, _, _⟩
  have hrun : (MultiSampler.mk (0 * 7000) 7).iterRun (fun i => i) fuel =
      samplerIterAux 7000 7 0 (7 * (7000 / 7)) (fun i => i) fuel 0 0 := rfl
  rw [hrun, samplerIterAux_zero_rounds 7000 7 (7 * (7000 / 7)) (fun i => i) fuel 0 0
    (by norm_num)] at hf
  simpa using congrArg Prod.snd hf

/-- C3 (amended): `MultiSampler.__len__` returns `max_rounds * max_get`,
and this declared length exactly matches the number of elements one
traversal yields — also when `B` does not divide 7000 evenly (there is no
overcount). -/
theorem c3_declared_length_matches_yield :
    (∀ s : MultiSampler, s.len = s.max_rounds * s.max_get) ∧
    (∀ (B N : Nat) (P : Nat → Nat), 1 ≤ B → B ≤ 7000 → 7000 ≤ N →
      ∃ out, MultiSampler.iterYields ⟨N, B⟩ P out ∧
        out.length = MultiSampler.len ⟨N, B⟩) := by
  refine ⟨fun s => rfl, fun B N P hB hB' hN => ?_⟩
  have hM : 1 ≤ N / 7000 := (Nat.one_le_div_iff (by omega)).mpr hN
  refine ⟨samplerSpecSchedule 7000 B (N / 7000) P,
    ⟨7000 / B * (N / 7000), genYields_schedule 7000 B (N / 7000) P hB hM⟩, ?_⟩
  rw [samplerSpecSchedule_length]
  show 7000 / B * (N / 7000) * B = N / 7000 * (B * (7000 / B))
  ring

/-- Witness for C3 at `N = 7001`, `B = 2`. -/
theorem c3_declared_length_matches_yield_witness :
    ∃ out, MultiSampler.iterYields ⟨7001, 2⟩ (fun i => i) out ∧
      out.length = MultiSampler.len ⟨7001, 2⟩ :=
  c3_declared_length_matches_yield.2 2 7001 (fun i => i) (by omega) (by omega) (by omega)

/-- Counterexample to C3 as stated: `B = 3` does not divide 7000, yet for a
one-block dataset the traversal yields a list of exactly the declared
length 6999 (and every terminating traversal does), so the declared length
does not overcount. -/
theorem c3_no_overcount_at_B3 :
    MultiSampler.iterYields ⟨7000, 3⟩ (fun i => i)
      (samplerSpecSchedule 7000 3 1 (fun i => i)) ∧
    (samplerSpecSchedule 7000 3 1 (fun i => i)).length = MultiSampler.len ⟨7000, 3⟩ ∧
    (∀ out, MultiSampler.iterYields ⟨7000, 3⟩ (fun i => i) out →
      out.length = MultiSampler.len ⟨7000, 3⟩) := by
  have hyield : MultiSampler.iterYields ⟨7000, 3⟩ (fun i => i)
      (samplerSpecSchedule 7000 3 1 (fun i => i)) := by
    refine ⟨7000 / 3 * 1, ?_⟩
    show genRun 7000 3 (7000 / 7000) (fun i => i) (7000 / 3 * 1) = _
    exact genYields_schedule 7000 3 1 (fun i => i) (by omega) (by omega)
  have hlen : (samplerSpecSchedule 7000 3 1 (fun i => i)).length
      = MultiSampler.len ⟨7000, 3⟩ := by
    rw [samplerSpecSchedule_length]
    rfl
  refine ⟨hyield, hlen, fun out hout => ?_⟩
  have := genYields_unique 7000 3 1 (fun i => i) out
    (samplerSpecSchedule 7000 3 1 (fun i => i)) hout hyield
  rw [this, hlen]

/-- C9: dichotomy of `MultiSampler.__iter__`. For `N ≥ 7000` (and
`1 ≤ B ≤ 7000`) one traversal terminates after yielding exactly
`max_rounds * max_get` values; for `N < 7000` the loop never terminates —
no amount of fuel finishes it, the yielded stream grows without bound
(`fuel * B` values after `fuel` loop passes), and from the second pass on
it contains indices exceeding `N - 1`. -/
theorem c9_termination_dichotomy :
    (∀ (N B : Nat) (P : Nat → Nat), 7000 ≤ N → 1 ≤ B → B ≤ 7000 →
      ∃ out, MultiSampler.iterYields ⟨N, B⟩ P out ∧
        out.length = (MultiSampler.mk N B).max_rounds * (MultiSampler.mk N B).max_get) ∧
    (∀ (N B : Nat) (P : Nat → Nat), N < 7000 → 1 ≤ B → B ≤ 7000 →
      (∀ fuel, ((MultiSampler.mk N B).iterRun P fuel).2 = false) ∧
      (∀ fuel, ((MultiSampler.mk N B).iterRun P fuel).1.length = fuel * B) ∧
      (∀ fuel, 2 ≤ fuel → ∃ x ∈ ((MultiSampler.mk N B).iterRun P fuel).1, N - 1 < x)) := by
  constructor
  · intro N B P hN hB hB'
    have hM : 1 ≤ N / 7000 := (Nat.one_le_div_iff (by omega)).mpr hN
    refine ⟨samplerSpecSchedule 7000 B (N / 7000) P,
      ⟨7000 / B * (N / 7000), genYields_schedule 7000 B (N / 7000) P hB hM⟩, ?_⟩
    rw [samplerSpecSchedule_length]
    show 7000 / B * (N / 7000) * B = N / 7000 * (B * (7000 / B))
    ring
  · intro N B P hN hB hB'
    have hM : (MultiSampler.mk N B).max_rounds = 0 := Nat.div_eq_of_lt hN
    have hmg : 0 < B * (7000 / B) := by
      have h1 : 1 ≤ 7000 / B := (Nat.one_le_div_iff (by omega)).mpr hB'
      exact Nat.mul_pos (by omega) h1
    have hrun : ∀ fuel, (MultiSampler.mk N B).iterRun P fuel =
        ((List.range' 0 fuel).flatMap fun ρ =>
          (List.range B).map fun i => P (0 + i) + ρ * 7000, false) := by
      intro fuel
      show samplerIterAux 7000 B (MultiSampler.mk N B).max_rounds (B * (7000 / B)) P fuel 0 0 = _
      rw [hM]
      exact samplerIterAux_zero_rounds 7000 B (B * (7000 / B)) P fuel 0 0 hmg
    refine ⟨fun fuel => by rw [hrun fuel], fun fuel => ?_, fun fuel hfuel => ?_⟩
    · rw [hrun fuel]
      show ((List.range' 0 fuel).flatMap fun ρ =>
        (List.range B).map fun i => P (0 + i) + ρ * 7000).length = fuel * B
      rw [length_flatMap_const _ _ B (fun ρ _ => by simp), List.length_range']
    · rw [hrun fuel]
      refine ⟨P 0 + 1 * 7000, ?_, by omega⟩
      show P 0 + 1 * 7000 ∈ (List.range' 0 fuel).flatMap fun ρ =>
        (List.range B).map fun i => P (0 + i) + ρ * 7000
      refine List.mem_flatMap.mpr ⟨1, ?_, List.mem_map.mpr ⟨0, List.mem_range.mpr (by omega), rfl⟩⟩
      rw [← List.range_eq_range']
      exact List.mem_range.mpr (by omega)

/-- Witness for C9: the terminating branch at `N = 7000`, `B = 7000` and the
diverging branch at `N = 4`, `B = 2`, identity permutation. -/
theorem c9_termination_dichotomy_witness :
    (∃ out, MultiSampler.iterYields ⟨7000, 7000⟩ (fun i => i) out ∧
      out.length = (MultiSampler.mk 7000 7000).max_rounds * (MultiSampler.mk 7000 7000).max_get) ∧
    (∀ fuel, ((MultiSampler.mk 4 2).iterRun (fun i => i) fuel).2 = false) ∧
    (∀ fuel, ((MultiSampler.mk 4 2).iterRun (fun i => i) fuel).1.length = fuel * 2) ∧
    (∀ fuel, 2 ≤ fuel → ∃ x ∈ ((MultiSampler.mk 4 2).iterRun (fun i => i) fuel).1, 4 - 1 < x) :=
  ⟨c9_termination_dichotomy.1 7000 7000 (fun i => i) (by omega) (by omega) (by omega),
   c9_termination_dichotomy.2 4 2 (fun i => i) (by omega) (by omega) (by omega)⟩

/-! ## AdapterLangCallback (src/run.py lines 706-739) -/

/-- `AdapterLangCallback.__init__`: the language pairs, the task adapters and
options (kept abstract — they only feed the composed adapter setup), and the
two counters, both starting at 0. -/
structure AdapterLangCallback where
  pairs : List (String × String)
  task_adapters : List String
  split_index : Nat
  skip_layers : List Nat
  no_lang : Bool
  train_idx : Nat
  test_idx : Nat

/-- A fresh callback as built in `train` (`run.py` 127): both counters 0. -/
def AdapterLangCallback.init (pairs : List (String × String)) (task_adapters : List String)
    (split_index : Nat) (skip_layers : List Nat) (no_lang : Bool) : AdapterLangCallback :=
  { pairs := pairs, task_adapters := task_adapters, split_index := split_index,
    skip_layers := skip_layers, no_lang := no_lang, train_idx := 0, test_idx := 0 }

/-- `on_step_begin`: reads `pairs[train_idx]` (the pair whose adapters are
activated on the model), then `train_idx += 1; train_idx %= len(pairs)`.
Returned: the selected pair and the updated callback state. -/
def AdapterLangCallback.on_step_begin (c : AdapterLangCallback) :
    (String × String) × AdapterLangCallback :=
  (c.pairs.getD c.train_idx ("", ""),
   { c with train_idx := (c.train_idx + 1) % c.pairs.length })

/-- `next_test_adapter`: same as `on_step_begin` but on `test_idx`. -/
def AdapterLangCallback.next_test_adapter (c : AdapterLangCallback) :
    (String × String) × AdapterLangCallback :=
  (c.pairs.getD c.test_idx ("", ""),
   { c with test_idx := (c.test_idx + 1) % c.pairs.length })

/-- State after `n` training-step invocations. -/
def AdapterLangCallback.afterTrainSteps (c : AdapterLangCallback) : Nat → AdapterLangCallback
  | 0 => c
  | n + 1 => (c.afterTrainSteps n).on_step_begin.2

/-- State after `n` evaluation-hook invocations. -/
def AdapterLangCallback.afterTestSteps (c : AdapterLangCallback) : Nat → AdapterLangCallback
  | 0 => c
  | n + 1 => (c.afterTestSteps n).next_test_adapter.2

/-- The counters stay fixed in the fields the other hook owns. -/
theorem afterTrainSteps_fields (c : AdapterLangCallback) (n : Nat) :
    (c.afterTrainSteps n).pairs = c.pairs ∧ (c.afterTrainSteps n).test_idx = c.test_idx := by
  induction n with
  | zero => exact ⟨rfl, rfl⟩
  | succ n ih => simpa [AdapterLangCallback.afterTrainSteps,
      AdapterLangCallback.on_step_begin] using ih

/-- Same for the test counter's walk. -/
theorem afterTestSteps_fields (c : AdapterLangCallback) (n : Nat) :
    (c.afterTestSteps n).pairs = c.pairs ∧ (c.afterTestSteps n).train_idx = c.train_idx := by
  induction n with
  | zero => exact ⟨rfl, rfl⟩
  | succ n ih => simpa [AdapterLangCallback.afterTestSteps,
      AdapterLangCallback.next_test_adapter] using ih

/-- From a fresh callback, `train_idx` after `n` invocations is `n % len(pairs)`. -/
theorem afterTrainSteps_train_idx (pairs : List (String × String)) (ta : List String)
    (si : Nat) (sk : List Nat) (nl : Bool) (n : Nat) :
    ((AdapterLangCallback.init pairs ta si sk nl).afterTrainSteps n).train_idx
      = n % pairs.length := by
  induction n with
  | zero => simp [AdapterLangCallback.afterTrainSteps, AdapterLangCallback.init,
      Nat.zero_mod]
  | succ n ih =>
    have hpairs := (afterTrainSteps_fields (AdapterLangCallback.init pairs ta si sk nl) n).1
    simp only [AdapterLangCallback.afterTrainSteps, AdapterLangCallback.on_step_begin]
    rw [hpairs, ih]
    show (n % pairs.length + 1) % pairs.length = (n + 1) % pairs.length
    rw [Nat.mod_add_mod]

/-- From a fresh callback, `test_idx` after `n` invocations is `n % len(pairs)`. -/
theorem afterTestSteps_test_idx (pairs : List (String × String)) (ta : List String)
    (si : Nat) (sk : List Nat) (nl : Bool) (n : Nat) :
    ((AdapterLangCallback.init pairs ta si sk nl).afterTestSteps n).test_idx
      = n % pairs.length := by
  induction n with
  | zero => simp [AdapterLangCallback.afterTestSteps, AdapterLangCallback.init,
      Nat.zero_mod]
  | succ n ih =>
    have hpairs := (afterTestSteps_fields (AdapterLangCallback.init pairs ta si sk nl) n).1
    simp only [AdapterLangCallback.afterTestSteps, AdapterLangCallback.next_test_adapter]
    rw [hpairs, ih]
    show (n % pairs.length + 1) % pairs.length = (n + 1) % pairs.length
    rw [Nat.mod_add_mod]

/-- C5: each hook invocation increments its counter modulo `len(pairs)`;
from a fresh callback both counters stay in `[0, len(pairs))`, return to
their initial value after exactly `len(pairs)` invocations, and the `i`-th
invocation selects `pairs[i % len(pairs)]`. -/
theorem c5_callback_counters_cycle (pairs : List (String × String)) (ta : List String)
    (si : Nat) (sk : List Nat) (nl : Bool) (hp : 0 < pairs.length) :
    (∀ c : AdapterLangCallback,
      c.on_step_begin.2.train_idx = (c.train_idx + 1) % c.pairs.length ∧
      c.next_test_adapter.2.test_idx = (c.test_idx + 1) % c.pairs.length) ∧
    (∀ n,
      ((AdapterLangCallback.init pairs ta si sk nl).afterTrainSteps n).train_idx
          = n % pairs.length ∧
      ((AdapterLangCallback.init pairs ta si sk nl).afterTestSteps n).test_idx
          = n % pairs.length ∧
      ((AdapterLangCallback.init pairs ta si sk nl).afterTrainSteps n).train_idx
          < pairs.length ∧
      ((AdapterLangCallback.init pairs ta si sk nl).afterTestSteps n).test_idx
          < pairs.length) ∧
    (((AdapterLangCallback.init pairs ta si sk nl).afterTrainSteps pairs.length).train_idx
        = (AdapterLangCallback.init pairs ta si sk nl).train_idx ∧
      ((AdapterLangCallback.init pairs ta si sk nl).afterTestSteps pairs.length).test_idx
        = (AdapterLangCallback.init pairs ta si sk nl).test_idx) ∧
    (∀ i,
      ((AdapterLangCallback.init pairs ta si sk nl).afterTrainSteps i).on_step_begin.1
          = pairs.getD (i % pairs.length) ("", "") ∧
      ((AdapterLangCallback.init pairs ta si sk nl).afterTestSteps i).next_test_adapter.1
          = pairs.getD (i % pairs.length) ("", "")) := by
  refine ⟨fun c => ⟨rfl, rfl⟩, fun n => ?_, ?_, fun i => ?_⟩
  · have h1 := afterTrainSteps_train_idx pairs ta si sk nl n
    have h2 := afterTestSteps_test_idx pairs ta si sk nl n
    exact ⟨h1, h2, h1 ▸ Nat.mod_lt n hp, h2 ▸ Nat.mod_lt n hp⟩
  · constructor
    · rw [afterTrainSteps_train_idx pairs ta si sk nl pairs.length, Nat.mod_self]
      rfl
    · rw [afterTestSteps_test_idx pairs ta si sk nl pairs.length, Nat.mod_self]
      rfl
  · constructor
    · show ((AdapterLangCallback.init pairs ta si sk nl).afterTrainSteps i).pairs.getD
        ((AdapterLangCallback.init pairs ta si sk nl).afterTrainSteps i).train_idx ("", "") = _
      rw [(afterTrainSteps_fields _ i).1, afterTrainSteps_train_idx pairs ta si sk nl i]
      rfl
    · show ((AdapterLangCallback.init pairs ta si sk nl).afterTestSteps i).pairs.getD
        ((AdapterLangCallback.init pairs ta si sk nl).afterTestSteps i).test_idx ("", "") = _
      rw [(afterTestSteps_fields _ i).1, afterTestSteps_test_idx pairs ta si sk nl i]
      rfl

/-- Witness for C5 on two language pairs. -/
theorem c5_callback_counters_cycle_witness :
    ((AdapterLangCallback.init [("en", "de"), ("ro", "en")] [] 50 [] false).afterTrainSteps 2).train_idx
        = (AdapterLangCallback.init [("en", "de"), ("ro", "en")] [] 50 [] false).train_idx ∧
    ((AdapterLangCallback.init [("en", "de"), ("ro", "en")] [] 50 [] false).afterTrainSteps 3).on_step_begin.1
        = [("en", "de"), ("ro", "en")].getD (3 % 2) ("", "") :=
  ⟨(c5_callback_counters_cycle [("en", "de"), ("ro", "en")] [] 50 [] false (by decide)).2.2.1.1,
   ((c5_callback_counters_cycle [("en", "de"), ("ro", "en")] [] 50 [] false (by decide)).2.2.2 3).1⟩

/-! ## The evaluation-hook rotation in CustomTrainer.prediction_loop
(src/run.py lines 528-531) -/

/-- The steps (0-based batch numbers, over `numBatches` batches) at which
`CustomTrainer.prediction_loop` calls `next_test_adapter`: exactly those
with `(step * batch_size) % 1000 == 0`. -/
def evalHookSteps (B numBatches : Nat) : List Nat :=
  (List.range numBatches).filter fun step => step * B % 1000 == 0

/-- Multiples of `q` below `n`, listed in order, are `k*q` for
`k < ⌈n/q⌉`. -/
theorem filter_dvd_range (q : Nat) (hq : 1 ≤ q) (n : Nat) :
    (List.range n).filter (fun s => decide (q ∣ s)) =
      (List.range ((n + q - 1) / q)).map fun k => k * q := by
  have hq1 : (q - 1) / q = 0 := Nat.div_eq_of_lt (by omega)
  induction n with
  | zero =>
    simp [hq1]
  | succ n ih =>
    rw [List.range_succ, List.filter_append, ih]
    by_cases hdvd : q ∣ n
    · obtain ⟨m, rfl⟩ := hdvd
      have hold : (q * m + q - 1) / q = m := by
        rw [show q * m + q - 1 = q * m + (q - 1) from by omega, Nat.mul_add_div (by omega), hq1]
        omega
      have hsucc : q * (m + 1) = q * m + q := by ring
      have hnew : (q * m + 1 + q - 1) / q = m + 1 := by
        rw [show q * m + 1 + q - 1 = q * (m + 1) + 0 from by omega,
          Nat.mul_add_div (by omega)]
        simp
      rw [hold, hnew, List.range_succ, List.map_append]
      simp [Nat.mul_comm q m, Dvd.intro m rfl]
    · have hmod : n % q ≠ 0 := fun h0 => hdvd (Nat.dvd_of_mod_eq_zero h0)
      obtain ⟨m, t, htq, ht1, hn⟩ : ∃ m t, t < q ∧ 1 ≤ t ∧ n = q * m + t :=
        ⟨n / q, n % q, Nat.mod_lt n (by omega), by omega, (Nat.div_add_mod n q).symm⟩
      have hsucc : q * (m + 1) = q * m + q := by ring
      have hold : (n + q - 1) / q = m + 1 := by
        rw [show n + q - 1 = q * (m + 1) + (t - 1) from by omega, Nat.mul_add_div (by omega),
          Nat.div_eq_of_lt (show t - 1 < q from by omega)]
      have hnew : (n + 1 + q - 1) / q = m + 1 := by
        rw [show n + 1 + q - 1 = q * (m + 1) + t from by omega, Nat.mul_add_div (by omega),
          Nat.div_eq_of_lt htq]
      rw [hold, hnew]
      simp [hdvd]

/-- C4 (amended to batch sizes dividing 1000): during
`CustomTrainer.prediction_loop` over `n` batches of size `B`, the hook
`next_test_adapter` fires exactly at steps `k * (1000/B)` for
`k < ⌈n·B/1000⌉` — the step whose first example is `k * 1000` — i.e. once
per 1000 evaluation examples. -/
theorem c4_eval_hook_every_1000 (B n : Nat) (hB : B ∣ 1000) :
    evalHookSteps B n =
      ((List.range ((n + 1000 / B - 1) / (1000 / B))).map fun k => k * (1000 / B)) ∧
    ∀ k : Nat, k * (1000 / B) * B = k * 1000 := by
  have hBpos : 0 < B := Nat.pos_of_dvd_of_pos hB (by omega)
  have hq : 1 ≤ 1000 / B := (Nat.one_le_div_iff hBpos).mpr (Nat.le_of_dvd (by omega) hB)
  have hBq : B * (1000 / B) = 1000 := Nat.mul_div_cancel' hB
  constructor
  · have hpt : ∀ step ∈ List.range n, (step * B % 1000 == 0) = decide ((1000 / B) ∣ step) := by
      intro step _
      rw [Bool.eq_iff_iff]
      simp only [beq_iff_eq, decide_eq_true_eq]
      rw [← Nat.dvd_iff_mod_eq_zero]
      have hiff : (1000 / B) * B ∣ step * B ↔ (1000 / B) ∣ step :=
        Nat.mul_dvd_mul_iff_right hBpos
      rw [Nat.div_mul_cancel hB] at hiff
      exact hiff
    unfold evalHookSteps
    rw [List.filter_congr hpt, filter_dvd_range (1000 / B) hq n]
  · intro k
    rw [Nat.mul_assoc, Nat.mul_comm (1000 / B) B, hBq]

/-- Witness for C4 at `B = 500`, 5 batches: the hook fires at steps 0, 2, 4. -/
theorem c4_eval_hook_every_1000_witness :
    (500 ∣ 1000) ∧
    evalHookSteps 500 5 =
      ((List.range ((5 + 1000 / 500 - 1) / (1000 / 500))).map fun k => k * (1000 / 500)) ∧
    ∀ k : Nat, k * (1000 / 500) * 500 = k * 1000 :=
  ⟨by decide, c4_eval_hook_every_1000 500 5 (by decide)⟩

/-- Counterexample to C4 as stated (every batch size): with `B = 3` and 334
batches (1002 examples, so examples 0 and 1000 both exist), the hook fires
only at step 0 — not at step 333, the batch containing example 1000 — so it
is not invoked once per 1000 examples. -/
theorem c4_batch_3_counterexample :
    evalHookSteps 3 334 = [0] ∧ evalHookSteps 3 334 ≠ [0, 333] := by
  constructor
  · decide
  · decide

/-! ## EnsembleTrainer.prediction_loop final averaging (src/run.py 676-680) -/

/-- torch `buf.reshape(n, -1)`: row-major split of a length-`L` buffer into
`n` rows of `L/n` elements each.  As in torch, it fails (a RuntimeError at
run time) exactly when `n` (here always ≥ 1, the number of adapter setups)
does not divide the element count. -/
def reshapeRows (n : Nat) (buf : List ℚ) : Option (List (List ℚ)) :=
  if 0 < n ∧ buf.length % n = 0 then
    some ((List.range n).map fun s => (buf.drop (s * (buf.length / n))).take (buf.length / n))
  else none

/-- torch `.mean(dim=0)` on a stack of rows of length `rowLen`: elementwise
sum over the rows divided by the number of rows. -/
def meanDim0 (rows : List (List ℚ)) (rowLen : Nat) : List ℚ :=
  (List.range rowLen).map fun j =>
    ((rows.map fun row => row.getD j 0).sum) / (rows.length : ℚ)

/-- `buf.reshape(num_setups, -1).mean(dim=0)` as applied to `losses_host`
and `preds_host` in `run.py` 677-679. -/
def ensembleAverage (n : Nat) (buf : List ℚ) : Option (List ℚ) :=
  (reshapeRows n buf).map fun rows => meanDim0 rows (buf.length / n)

/-- The final gather of `EnsembleTrainer.prediction_loop` (`run.py`
677-680): losses and predictions averaged over the setup axis, labels
truncated to `labels_host[:1000]`. -/
def ensembleFinalize (numSetups : Nat) (losses preds labels : List ℚ) :
    Option (List ℚ) × Option (List ℚ) × List ℚ :=
  (ensembleAverage numSetups losses, ensembleAverage numSetups preds, labels.take 1000)

/-- Reading a list back off its positions. -/
theorem map_getD_range {α : Type} (l : List α) (d : α) :
    (List.range l.length).map (fun j => l.getD j d) = l := by
  apply List.ext_getElem
  · simp
  · intro i h1 h2
    rw [List.getElem_map, List.getElem_range]
    exact List.getD_eq_getElem l d h2

/-- The reshape succeeds exactly on divisible lengths. -/
theorem reshapeRows_eq_none_iff (n : Nat) (buf : List ℚ) (hn : 0 < n) :
    reshapeRows n buf = none ↔ ¬ n ∣ buf.length := by
  unfold reshapeRows
  by_cases h : buf.length % n = 0
  · simp [hn, h, Nat.dvd_iff_mod_eq_zero]
  · simp [hn, h, Nat.dvd_iff_mod_eq_zero]

/-- Entry `j` of row `s` of the reshape is entry `s * rowLen + j` of the
buffer. -/
theorem reshape_row_entry (buf : List ℚ) (rowLen s j : Nat)
    (hj : j < rowLen) (hbound : s * rowLen + rowLen ≤ buf.length) :
    ((buf.drop (s * rowLen)).take rowLen).getD j 0 = buf.getD (s * rowLen + j) 0 := by
  have hlt : s * rowLen + j < buf.length := by omega
  have hdroplen : j < (buf.drop (s * rowLen)).length := by
    rw [List.length_drop]
    omega
  have htakelen : j < ((buf.drop (s * rowLen)).take rowLen).length := by
    rw [List.length_take]
    omega
  rw [List.getD_eq_getElem _ _ htakelen, List.getD_eq_getElem _ _ hlt,
    List.getElem_take, List.getElem_drop]

/-- Divisible case of the averaging step: it returns a row of length
`buf.length / n` whose entry `j` is the mean over the setups `s < n` of
entry `s * (buf.length / n) + j` of the accumulated buffer. -/
theorem ensembleAverage_of_dvd (n : Nat) (buf : List ℚ) (hn : 0 < n)
    (hdvd : n ∣ buf.length) :
    ∃ avg, ensembleAverage n buf = some avg ∧
      avg.length = buf.length / n ∧
      ∀ j, j < buf.length / n →
        avg.getD j 0 =
          (((List.range n).map fun s => buf.getD (s * (buf.length / n) + j) 0).sum) /
            (n : ℚ) := by
  have hmod : buf.length % n = 0 := (Nat.dvd_iff_mod_eq_zero).mp hdvd
  have hreshape : reshapeRows n buf =
      some ((List.range n).map fun s =>
        (buf.drop (s * (buf.length / n))).take (buf.length / n)) := by
    unfold reshapeRows
    rw [if_pos ⟨hn, hmod⟩]
  refine ⟨meanDim0 ((List.range n).map fun s =>
      (buf.drop (s * (buf.length / n))).take (buf.length / n)) (buf.length / n), ?_, ?_, ?_⟩
  · rw [ensembleAverage, hreshape]
    rfl
  · unfold meanDim0
    simp
  · intro j hj
    unfold meanDim0
    have hjlen : j < (List.range (buf.length / n)).length := by simpa using hj
    rw [List.getD_eq_getElem _ _ (by simpa using hj), List.getElem_map, List.getElem_range]
    have hrows : (((List.range n).map fun s =>
        (buf.drop (s * (buf.length / n))).take (buf.length / n)).map fun row =>
          row.getD j 0) =
        (List.range n).map fun s => buf.getD (s * (buf.length / n) + j) 0 := by
      rw [List.map_map]
      apply List.map_congr_left
      intro s hs
      have hsn : s < n := List.mem_range.mp hs
      have hbound : s * (buf.length / n) + buf.length / n ≤ buf.length := by
        have heq : n * (buf.length / n) = buf.length := Nat.mul_div_cancel' hdvd
        have hle : (s + 1) * (buf.length / n) ≤ n * (buf.length / n) :=
          Nat.mul_le_mul_right _ hsn
        calc s * (buf.length / n) + buf.length / n
            = (s + 1) * (buf.length / n) := by ring
          _ ≤ n * (buf.length / n) := hle
          _ = buf.length := heq
      exact reshape_row_entry buf (buf.length / n) s j hj hbound
    rw [hrows]
    simp

/-- C6: with a single adapter setup (`num_setups = 1`), the reshape to
`(1, -1)` followed by the mean over the setup axis returns the accumulated
losses and predictions unchanged. -/
theorem c6_single_setup_average_identity (losses preds labels : List ℚ) :
    (ensembleFinalize 1 losses preds labels).1 = some losses ∧
    (ensembleFinalize 1 losses preds labels).2.1 = some preds := by
  have key : ∀ buf : List ℚ, ensembleAverage 1 buf = some buf := by
    intro buf
    have hreshape : reshapeRows 1 buf = some [buf] := by
      unfold reshapeRows
      rw [if_pos ⟨by omega, Nat.mod_one _⟩]
      rw [show List.range 1 = [0] from rfl]
      simp
    have hsum : ∀ j : Nat, (([buf].map fun row => row.getD j 0).sum) / (([buf].length : Nat) : ℚ)
        = buf.getD j 0 := by
      intro j
      simp
    have hmean : meanDim0 [buf] (buf.length / 1) = buf := by
      unfold meanDim0
      rw [Nat.div_one]
      calc (List.range buf.length).map (fun j =>
            (([buf].map fun row => row.getD j 0).sum) / (([buf].length : Nat) : ℚ))
          = (List.range buf.length).map (fun j => buf.getD j 0) :=
            List.map_congr_left fun j _ => hsum j
        _ = buf := map_getD_range buf 0
    rw [ensembleAverage, hreshape]
    show some (meanDim0 [buf] (buf.length / 1)) = some buf
    rw [hmean]
  exact ⟨key losses, key preds⟩

/-- C7: the averaging step reshapes the accumulated buffer into
`num_setups` equal rows and averages them elementwise; when the
accumulated total is not divisible into `num_setups` equal rows the
reshape fails (a shape error at run time, modelled as `none`) instead of
returning a value. -/
theorem c7_ensemble_average_shape (n : Nat) (buf : List ℚ) (hn : 0 < n) :
    (¬ n ∣ buf.length → ensembleAverage n buf = none) ∧
    (n ∣ buf.length → ∃ avg, ensembleAverage n buf = some avg ∧
      avg.length = buf.length / n ∧
      ∀ j, j < buf.length / n →
        avg.getD j 0 =
          (((List.range n).map fun s => buf.getD (s * (buf.length / n) + j) 0).sum) /
            (n : ℚ)) := by
  constructor
  · intro hnd
    rw [ensembleAverage, (reshapeRows_eq_none_iff n buf hn).mpr hnd]
    rfl
  · intro hdvd
    exact ensembleAverage_of_dvd n buf hn hdvd

/-- Witness for C7: two setups reject a 3-element buffer and average a
4-element buffer into 2 values. -/
theorem c7_ensemble_average_shape_witness :
    ensembleAverage 2 [(1 : ℚ), 2, 3] = none ∧
    ∃ avg, ensembleAverage 2 [(1 : ℚ), 2, 3, 5] = some avg ∧
      avg.length = [(1 : ℚ), 2, 3, 5].length / 2 ∧
      ∀ j, j < [(1 : ℚ), 2, 3, 5].length / 2 →
        avg.getD j 0 =
          (((List.range 2).map fun s =>
            [(1 : ℚ), 2, 3, 5].getD (s * ([(1 : ℚ), 2, 3, 5].length / 2) + j) 0).sum) /
            ((2 : Nat) : ℚ) :=
  ⟨(c7_ensemble_average_shape 2 [(1 : ℚ), 2, 3] (by omega)).1 (by decide),
   (c7_ensemble_average_shape 2 [(1 : ℚ), 2, 3, 5] (by omega)).2 (by decide)⟩

/-- C10: before the final gather, the label buffer is cut to
`labels_host[:1000]` whatever the number of examples or setups, so with
more than 1000 accumulated labels the metric sees exactly 1000 of them,
while the averaged predictions keep one value per example
(`preds.length / num_setups`). -/
theorem c10_labels_truncated_to_1000 (numSetups : Nat) (losses preds labels : List ℚ)
    (hn : 0 < numSetups) (hdvd : numSetups ∣ preds.length)
    (hlen : 1000 < labels.length) :
    (ensembleFinalize numSetups losses preds labels).2.2 = labels.take 1000 ∧
    (ensembleFinalize numSetups losses preds labels).2.2.length = 1000 ∧
    (ensembleFinalize numSetups losses preds labels).2.2.length < labels.length ∧
    ∃ avg, (ensembleFinalize numSetups losses preds labels).2.1 = some avg ∧
      avg.length = preds.length / numSetups := by
  have htake : (labels.take 1000).length = 1000 := by
    rw [List.length_take]
    omega
  obtain ⟨avg, havg, hlen', _⟩ := ensembleAverage_of_dvd numSetups preds hn hdvd
  exact ⟨rfl, htake, by rw [show (ensembleFinalize numSetups losses preds labels).2.2
      = labels.take 1000 from rfl, htake]; omega,
    avg, havg, hlen'⟩

/-- Witness for C10: two setups, four predictions, 1001 labels. -/
theorem c10_labels_truncated_to_1000_witness :
    (ensembleFinalize 2 [] [(1 : ℚ), 2, 3, 5] (List.replicate 1001 0)).2.2
        = (List.replicate 1001 (0 : ℚ)).take 1000 ∧
    (ensembleFinalize 2 [] [(1 : ℚ), 2, 3, 5] (List.replicate 1001 0)).2.2.length = 1000 ∧
    (ensembleFinalize 2 [] [(1 : ℚ), 2, 3, 5] (List.replicate 1001 0)).2.2.length
        < (List.replicate 1001 (0 : ℚ)).length ∧
    ∃ avg, (ensembleFinalize 2 [] [(1 : ℚ), 2, 3, 5] (List.replicate 1001 0)).2.1 = some avg ∧
      avg.length = [(1 : ℚ), 2, 3, 5].length / 2 :=
  c10_labels_truncated_to_1000 2 [] [(1 : ℚ), 2, 3, 5] (List.replicate 1001 0)
    (by omega) (by decide) (by rw [List.length_replicate]; omega)

/-! ## test(): the evaluation results object (src/run.py 193-243) -/

/-- One entry of the `dev`/`test` lists: the metrics mapping returned by the
library call `Trainer.evaluate(metric_key_prefix=...)`, plus the `pair` key
that `test` adds (`run.py` 226, 240). -/
structure EvalRecord where
  metrics : List (String × String)
  pair : String

/-- The object `test` builds and dumps to `evaluation_<task>.json`
(`run.py` 193 and 243): exactly the keys `dev`, `test` and `task`. -/
structure TestResults where
  dev : List EvalRecord
  test : List EvalRecord
  task : String

/-- The loop of `test` over `config["test"]["pairs"]` (`run.py` 194-241):
for each configured pair, in order, one dev and one test evaluation are
appended to the respective list, each tagged `pair = f"{lang1}_{lang2}"`.
`evalFn pre p` stands for the external `Trainer.evaluate` call with
`metric_key_prefix=pre` on the model set up for pair `p`. -/
def testResults (task : String) (pairs : List (String × String))
    (evalFn : String → String × String → List (String × String)) : TestResults :=
  { dev := pairs.map fun p => { metrics := evalFn "dev" p, pair := p.1 ++ "_" ++ p.2 },
    test := pairs.map fun p => { metrics := evalFn "test" p, pair := p.1 ++ "_" ++ p.2 },
    task := task }

/-- `s` begins with the metric-key prefix `pre`. -/
def keyStartsWith (pre s : String) : Prop := ∃ rest, s = pre ++ rest

/-- C8: the results object has exactly the fields `dev`, `test`, `task`
(by construction of `TestResults`); `task` echoes the configured task; the
`dev` and `test` lists hold one record per configured pair in
configuration order, each with `pair = "<lang1>_<lang2>"`; and provided
the library's evaluate call prefixes every metric key with its
`metric_key_prefix` argument, every metric field of a dev (resp. test)
record starts with `dev_` (resp. `test_`). -/
theorem c8_evaluation_json_shape (task : String) (pairs : List (String × String))
    (evalFn : String → String × String → List (String × String))
    (hdev : ∀ p : String × String, ∀ kv ∈ evalFn "dev" p, keyStartsWith "dev_" kv.1)
    (htest : ∀ p : String × String, ∀ kv ∈ evalFn "test" p, keyStartsWith "test_" kv.1) :
    (testResults task pairs evalFn).task = task ∧
    (testResults task pairs evalFn).dev.length = pairs.length ∧
    (testResults task pairs evalFn).test.length = pairs.length ∧
    (∀ i, i < pairs.length →
      ((testResults task pairs evalFn).dev.getD i ⟨[], ""⟩).pair
          = (pairs.getD i ("", "")).1 ++ "_" ++ (pairs.getD i ("", "")).2 ∧
      ∀ kv ∈ ((testResults task pairs evalFn).dev.getD i ⟨[], ""⟩).metrics,
        keyStartsWith "dev_" kv.1) ∧
    (∀ i, i < pairs.length →
      ((testResults task pairs evalFn).test.getD i ⟨[], ""⟩).pair
          = (pairs.getD i ("", "")).1 ++ "_" ++ (pairs.getD i ("", "")).2 ∧
      ∀ kv ∈ ((testResults task pairs evalFn).test.getD i ⟨[], ""⟩).metrics,
        keyStartsWith "test_" kv.1) := by
  have hgetD : ∀ (f : String × String → EvalRecord) (i : Nat), i < pairs.length →
      (pairs.map f).getD i ⟨[], ""⟩ = f (pairs.getD i ("", "")) := by
    intro f i hi
    have h1 : i < (pairs.map f).length := by simpa using hi
    rw [List.getD_eq_getElem _ _ h1, List.getElem_map, List.getD_eq_getElem _ _ hi]
  refine ⟨rfl, by simp [testResults], by simp [testResults], fun i hi => ?_, fun i hi => ?_⟩
  · have hmap := hgetD
      (fun p => ({ metrics := evalFn "dev" p, pair := p.1 ++ "_" ++ p.2 } : EvalRecord)) i hi
    refine ⟨?_, fun kv hkv => hdev (pairs.getD i ("", "")) kv ?_⟩
    · show ((pairs.map fun p =>
        ({ metrics := evalFn "dev" p, pair := p.1 ++ "_" ++ p.2 } : EvalRecord)).getD
          i ⟨[], ""⟩).pair = _
      rw [hmap]
    · revert hkv
      show kv ∈ ((pairs.map fun p =>
        ({ metrics := evalFn "dev" p, pair := p.1 ++ "_" ++ p.2 } : EvalRecord)).getD
          i ⟨[], ""⟩).metrics → _
      rw [hmap]
      exact id
  · have hmap := hgetD
      (fun p => ({ metrics := evalFn "test" p, pair := p.1 ++ "_" ++ p.2 } : EvalRecord)) i hi
    refine ⟨?_, fun kv hkv => htest (pairs.getD i ("", "")) kv ?_⟩
    · show ((pairs.map fun p =>
        ({ metrics := evalFn "test" p, pair := p.1 ++ "_" ++ p.2 } : EvalRecord)).getD
          i ⟨[], ""⟩).pair = _
      rw [hmap]
    · revert hkv
      show kv ∈ ((pairs.map fun p =>
        ({ metrics := evalFn "test" p, pair := p.1 ++ "_" ++ p.2 } : EvalRecord)).getD
          i ⟨[], ""⟩).metrics → _
      rw [hmap]
      exact id

/-- Witness for C8: two configured pairs and an evaluate stub returning one
prefixed pearson metric. -/
theorem c8_evaluation_json_shape_witness :
    (testResults "qe_da" [("en", "de"), ("ro", "en")]
        (fun pre _ => [(pre ++ "_pearson", "1")])).task = "qe_da" ∧
    (testResults "qe_da" [("en", "de"), ("ro", "en")]
        (fun pre _ => [(pre ++ "_pearson", "1")])).dev.length
      = [("en", "de"), ("ro", "en")].length ∧
    (testResults "qe_da" [("en", "de"), ("ro", "en")]
        (fun pre _ => [(pre ++ "_pearson", "1")])).test.length
      = [("en", "de"), ("ro", "en")].length ∧
    (∀ i, i < [("en", "de"), ("ro", "en")].length →
      ((testResults "qe_da" [("en", "de"), ("ro", "en")]
          (fun pre _ => [(pre ++ "_pearson", "1")])).dev.getD i ⟨[], ""⟩).pair
        = ([("en", "de"), ("ro", "en")].getD i ("", "")).1 ++ "_"
            ++ ([("en", "de"), ("ro", "en")].getD i ("", "")).2 ∧
      ∀ kv ∈ ((testResults "qe_da" [("en", "de"), ("ro", "en")]
          (fun pre _ => [(pre ++ "_pearson", "1")])).dev.getD i ⟨[], ""⟩).metrics,
        keyStartsWith "dev_" kv.1) ∧
    (∀ i, i < [("en", "de"), ("ro", "en")].length →
      ((testResults "qe_da" [("en", "de"), ("ro", "en")]
          (fun pre _ => [(pre ++ "_pearson", "1")])).test.getD i ⟨[], ""⟩).pair
        = ([("en", "de"), ("ro", "en")].getD i ("", "")).1 ++ "_"
            ++ ([("en", "de"), ("ro", "en")].getD i ("", "")).2 ∧
      ∀ kv ∈ ((testResults "qe_da" [("en", "de"), ("ro", "en")]
          (fun pre _ => [(pre ++ "_pearson", "1")])).test.getD i ⟨[], ""⟩).metrics,
        keyStartsWith "test_" kv.1) :=
  c8_evaluation_json_shape "qe_da" [("en", "de"), ("ro", "en")]
    (fun pre _ => [(pre ++ "_pearson", "1")])
    (by
      intro p kv hkv
      rw [List.mem_singleton] at hkv
      rw [hkv]
      exact ⟨"pearson", rfl⟩)
    (by
      intro p kv hkv
      rw [List.mem_singleton] at hkv
      rw [hkv]
      exact ⟨"pearson", rfl⟩)
